import Mathlib

/-!
Shallow embedding of `src/app.py` (a Streamlit text-translation app) and
verification of its specification.  Python strings are modelled as lists of
natural-number codepoints (`PyStr`); the catalog entries handled by the app
are ASCII.  Fallible provider calls are modelled with `Except`, and the
Streamlit UI outcome of one submit click is modelled by the `SubmitOutcome`
type together with an explicit count of translate invocations.
-/

/-- Python strings, as lists of codepoints. -/
abbrev PyStr := List Nat

/-- ASCII whitespace recognised by Python `str.strip()`. -/
def isSpaceChar (c : Nat) : Bool :=
  c = 32 || c = 9 || c = 10 || c = 13 || c = 11 || c = 12

/-- Python `str.strip()`: remove leading and trailing whitespace. -/
def pyStrip (s : PyStr) : PyStr :=
  ((s.dropWhile isSpaceChar).reverse.dropWhile isSpaceChar).reverse

/-- ASCII uppercase letter test. -/
def isUpperChar (c : Nat) : Bool := 65 ≤ c && c ≤ 90

/-- ASCII lowercase letter test. -/
def isLowerChar (c : Nat) : Bool := 97 ≤ c && c ≤ 122

/-- A cased character (ASCII letter). -/
def isCasedChar (c : Nat) : Bool := isUpperChar c || isLowerChar c

/-- ASCII uppercasing of one codepoint. -/
def toUpperChar (c : Nat) : Nat := if isLowerChar c then c - 32 else c

/-- ASCII lowercasing of one codepoint. -/
def toLowerChar (c : Nat) : Nat := if isUpperChar c then c + 32 else c

/-- The character-by-character loop of Python `str.title()`: a character
following a cased character is lowercased, any other character is
uppercased (titlecased). -/
def titleMap : Bool → PyStr → PyStr
  | _, [] => []
  | prevCased, c :: rest =>
      (if prevCased then toLowerChar c else toUpperChar c) ::
        titleMap (isCasedChar c) rest

/-- Python `str.title()`. -/
def pyTitle (s : PyStr) : PyStr := titleMap false s

/-- Python `raw_name.replace("_", " ")`: codepoint 95 becomes 32. -/
def replaceUnderscore (s : PyStr) : PyStr :=
  s.map (fun c => if c = 95 then 32 else c)

/-- `format_language_name` from `src/app.py`:
`raw_name.replace("_", " ").title()`. -/
def format_language_name (s : PyStr) : PyStr := pyTitle (replaceUnderscore s)

/-- Lexicographic (codepoint) order on Python strings, as used by
`sorted` comparing the labels: `lexLe s t` is `s <= t`. -/
def lexLe : PyStr → PyStr → Bool
  | [], _ => true
  | _ :: _, [] => false
  | a :: as, b :: bs =>
      if a < b then true else if b < a then false else lexLe as bs

/-- A language option: (display label, language code). -/
abbrev LangEntry := PyStr × PyStr

/-- Stable insertion of an entry into a label-sorted list: the new entry
goes in front of the first entry whose label is not smaller. -/
def insert_by_label (x : LangEntry) : List LangEntry → List LangEntry
  | [] => [x]
  | y :: ys => if lexLe x.1 y.1 then x :: y :: ys else y :: insert_by_label x ys

/-- Stable sort by label, modelling Python `sorted(..., key=lambda
item: item[0])` (Timsort is observably the unique stable sort). -/
def sort_by_label : List LangEntry → List LangEntry
  | [] => []
  | x :: xs => insert_by_label x (sort_by_label xs)

/-- The code `"auto"`. -/
def autoCode : PyStr := [97, 117, 116, 111]

/-- The code `"en"`. -/
def enCode : PyStr := [101, 110]

/-- The label `"Detectar automaticamente"` of the synthetic auto-detect
entry. -/
def detectLabel : PyStr :=
  [68, 101, 116, 101, 99, 116, 97, 114, 32,
   97, 117, 116, 111, 109, 97, 116, 105, 99, 97, 109, 101, 110, 116, 101]

/-- `build_language_options` from `src/app.py`, parameterised by the
supported-languages catalog (list of (raw name, code) pairs in provider
iteration order): formats every name, sorts by formatted label, and
prepends the synthetic auto-detect entry to the origin list only. -/
def build_language_options (supported : List LangEntry) :
    List LangEntry × List LangEntry :=
  let sorted_items :=
    sort_by_label (supported.map (fun nc => (format_language_name nc.1, nc.2)))
  let origin_options := (detectLabel, autoCode) :: sorted_items
  let target_options := sorted_items
  (origin_options, target_options)

/-- The index of the first entry whose code matches, if any (the loop body
of `find_index` in `src/app.py`). -/
def find_index_opt : List LangEntry → PyStr → Option Nat
  | [], _ => none
  | (_, c) :: rest, code =>
      if c = code then some 0 else (find_index_opt rest code).map (· + 1)

/-- `find_index` from `src/app.py`: linear scan for the first entry whose
code matches, returning 0 when none does. -/
def find_index (options : List LangEntry) (code : PyStr) : Nat :=
  (find_index_opt options code).getD 0

/-- Default source-select index on first render:
`find_index(origin_options, "auto")`. -/
def default_source_index (supported : List LangEntry) : Nat :=
  find_index (build_language_options supported).1 autoCode

/-- Default target-select index on first render:
`find_index(target_options, "en")`. -/
def default_target_index (supported : List LangEntry) : Nat :=
  find_index (build_language_options supported).2 enCode

/-- A Python exception, as far as the app distinguishes them:
`TypeError` versus anything else. -/
inductive PyExc where
  | typeError : PyExc
  | otherError : Nat → PyExc
deriving DecidableEq

/-- `get_supported_languages` from `src/app.py` (the try/except body,
with the two provider accessor attempts as parameters): try the
class-level accessor; on `TypeError` fall back to the instance-level
accessor; propagate any other exception; return a success unchanged. -/
def get_supported_languages
    (classAttempt instanceAttempt : Except PyExc (List LangEntry)) :
    Except PyExc (List LangEntry) :=
  match classAttempt with
  | .ok cat => .ok cat
  | .error .typeError => instanceAttempt
  | .error e => .error e

/-- The outcome rendered by one submit click in `render_app`. -/
inductive SubmitOutcome where
  | emptyWarning : SubmitOutcome
  | autoTargetError : SubmitOutcome
  | echo : PyStr → SubmitOutcome
  | success : PyStr → SubmitOutcome
  | failure : Nat → SubmitOutcome
deriving DecidableEq

/-- The submit branch of `render_app` in `src/app.py` (lines 134-158),
with the provider translate call passed in as a fallible function.  The
second component counts translate invocations. -/
def render_submit (translateFn : PyStr → PyStr → PyStr → Except Nat PyStr)
    (text source_code target_code : PyStr) : SubmitOutcome × Nat :=
  if pyStrip text = [] then (.emptyWarning, 0)
  else if target_code = autoCode then (.autoTargetError, 0)
  else if source_code ≠ autoCode ∧ source_code = target_code then
    (.echo text, 0)
  else
    match translateFn text source_code target_code with
    | .ok translated => (.success translated, 1)
    | .error e => (.failure e, 1)

/-- `render_app` from `src/app.py`: the catalog load
(`build_language_options`, hence `get_supported_languages`) happens
before the submit branch and is guarded by no try/except, so a catalog
failure propagates out; only the translate call is guarded. -/
def render_app (catalogResult : Except PyExc (List LangEntry))
    (translateFn : PyStr → PyStr → PyStr → Except Nat PyStr)
    (text source_code target_code : PyStr) :
    Except PyExc (SubmitOutcome × Nat) :=
  match catalogResult with
  | .error e => .error e
  | .ok cat =>
      let _options := build_language_options cat
      .ok (render_submit translateFn text source_code target_code)

/-- Modelled from the spec: the memoization provided by the
`@st.cache_data` decorator on `get_supported_languages` is Streamlit
framework behaviour, not code of this repository; per the spec it is a
lazily-initialized one-time-fill cache.  One call: if a value is cached,
return it without invoking the provider; otherwise invoke the provider
and cache a successful result.  The boolean records whether the provider
was invoked. -/
def cached_loader_step (provider : Except PyExc (List LangEntry))
    (state : Option (List LangEntry)) :
    Except PyExc (List LangEntry) × Option (List LangEntry) × Bool :=
  match state with
  | some cat => (.ok cat, some cat, false)
  | none =>
      match provider with
      | .ok cat => (.ok cat, some cat, true)
      | .error e => (.error e, none, true)

/-- A sequence of `n` calls to the cached loader, each call seeing the
state left by the previous one; returns the list of (result, provider
invoked) observations. -/
def cached_loader_runs (provider : Except PyExc (List LangEntry)) :
    Nat → Option (List LangEntry) → List (Except PyExc (List LangEntry) × Bool)
  | 0, _ => []
  | n + 1, state =>
      let step := cached_loader_step provider state
      (step.1, step.2.2) :: cached_loader_runs provider n step.2.1

/-! ### Character-level lemmas -/

lemma isLowerChar_iff {c : Nat} : isLowerChar c = true ↔ 97 ≤ c ∧ c ≤ 122 := by
  simp [isLowerChar]

lemma isUpperChar_iff {c : Nat} : isUpperChar c = true ↔ 65 ≤ c ∧ c ≤ 90 := by
  simp [isUpperChar]

lemma toUpperChar_idem (c : Nat) : toUpperChar (toUpperChar c) = toUpperChar c := by
  unfold toUpperChar
  split_ifs with h1 h2 <;> try rfl
  rw [isLowerChar_iff] at h1 h2; omega

lemma toLowerChar_idem (c : Nat) : toLowerChar (toLowerChar c) = toLowerChar c := by
  unfold toLowerChar
  split_ifs with h1 h2 <;> try rfl
  rw [isUpperChar_iff] at h1 h2; omega

lemma isCasedChar_toUpperChar (c : Nat) : isCasedChar (toUpperChar c) = isCasedChar c := by
  unfold toUpperChar
  split_ifs with h
  · rw [isLowerChar_iff] at h
    simp only [isCasedChar, isUpperChar, isLowerChar]
    have h65 : 65 ≤ c - 32 := by omega
    have h90 : c - 32 ≤ 90 := by omega
    simp [h65, h90]; omega
  · rfl

lemma isCasedChar_toLowerChar (c : Nat) : isCasedChar (toLowerChar c) = isCasedChar c := by
  unfold toLowerChar
  split_ifs with h
  · rw [isUpperChar_iff] at h
    have h97 : 97 ≤ c + 32 := by omega
    have h122 : c + 32 ≤ 122 := by omega
    simp only [isCasedChar, isUpperChar, isLowerChar]
    simp [h97, h122]; omega
  · rfl

lemma toUpperChar_ne95 {c : Nat} (h : c ≠ 95) : toUpperChar c ≠ 95 := by
  unfold toUpperChar
  split_ifs with hl
  · rw [isLowerChar_iff] at hl; omega
  · exact h

lemma toLowerChar_ne95 {c : Nat} (h : c ≠ 95) : toLowerChar c ≠ 95 := by
  unfold toLowerChar
  split_ifs with hl
  · rw [isUpperChar_iff] at hl; omega
  · exact h

/-! ### Title-case lemmas -/

lemma titleMap_idem (s : PyStr) : ∀ p : Bool, titleMap p (titleMap p s) = titleMap p s := by
  induction s with
  | nil => intro p; rfl
  | cons c rest ih =>
      intro p
      cases p with
      | false =>
          simp only [titleMap, Bool.false_eq_true, if_false]
          rw [isCasedChar_toUpperChar, toUpperChar_idem, ih]
      | true =>
          simp only [titleMap, if_true]
          rw [isCasedChar_toLowerChar, toLowerChar_idem, ih]

lemma mem_replaceUnderscore_ne95 {s : PyStr} {c : Nat}
    (h : c ∈ replaceUnderscore s) : c ≠ 95 := by
  simp only [replaceUnderscore, List.mem_map] at h
  obtain ⟨d, _, hd⟩ := h
  by_cases h95 : d = 95 <;> simp [h95] at hd <;> omega

lemma replaceUnderscore_of_no95 {s : PyStr} (h : ∀ c ∈ s, c ≠ 95) :
    replaceUnderscore s = s := by
  induction s with
  | nil => rfl
  | cons c rest ih =>
      simp only [replaceUnderscore, List.map_cons]
      rw [if_neg (h c (List.mem_cons_self c rest))]
      have := ih (fun d hd => h d (List.mem_cons_of_mem c hd))
      simpa [replaceUnderscore] using this

lemma mem_titleMap_ne95 {s : PyStr} (h : ∀ c ∈ s, c ≠ 95) :
    ∀ p : Bool, ∀ c ∈ titleMap p s, c ≠ 95 := by
  induction s with
  | nil => intro p c hc; simp [titleMap] at hc
  | cons d rest ih =>
      intro p c hc
      simp only [titleMap, List.mem_cons] at hc
      rcases hc with hc | hc
      · subst hc
        have hd : d ≠ 95 := h d (List.mem_cons_self d rest)
        cases p with
        | true => simpa using toLowerChar_ne95 hd
        | false => simpa using toUpperChar_ne95 hd
      · exact ih (fun e he => h e (List.mem_cons_of_mem d he)) (isCasedChar d) c hc

/-- Claim C6: for every catalog entry key (indeed for every string), the
language-name formatting function is idempotent: applying
`format_language_name` twice yields the same string as applying it once. -/
theorem format_language_name_idem (s : PyStr) :
    format_language_name (format_language_name s) = format_language_name s := by
  unfold format_language_name pyTitle
  rw [replaceUnderscore_of_no95
        (mem_titleMap_ne95 (fun c hc => mem_replaceUnderscore_ne95 hc) false),
      titleMap_idem]

/-! ### Lexicographic-order lemmas -/

lemma lexLe_refl (s : PyStr) : lexLe s s = true := by
  induction s with
  | nil => rfl
  | cons a as ih => simp [lexLe, ih]

lemma lexLe_total (s t : PyStr) : lexLe s t = true ∨ lexLe t s = true := by
  induction s generalizing t with
  | nil => left; rfl
  | cons a as ih =>
      cases t with
      | nil => right; rfl
      | cons b bs =>
          by_cases hab : a < b
          · left; simp [lexLe, hab]
          · by_cases hba : b < a
            · right; simp [lexLe, hba]
            · have hle : ¬ b < a := hba
              rcases ih bs with h | h
              · left; simp [lexLe, hab, hba, h]
              · right; simp [lexLe, hab, hba, h]

lemma lexLe_trans {s t u : PyStr} (h1 : lexLe s t = true) (h2 : lexLe t u = true) :
    lexLe s u = true := by
  induction s generalizing t u with
  | nil => rfl
  | cons a as ih =>
      cases t with
      | nil => simp [lexLe] at h1
      | cons b bs =>
          cases u with
          | nil => simp [lexLe] at h2
          | cons c cs =>
              simp only [lexLe] at h1 h2 ⊢
              by_cases hab : a < b
              · by_cases hbc : b < c
                · have hac : a < c := by omega
                  simp [hac]
                · by_cases hcb : c < b
                  · rw [if_neg hbc, if_pos hcb] at h2; simp at h2
                  · have hac : a < c := by omega
                    simp [hac]
              · by_cases hba : b < a
                · rw [if_neg hab, if_pos hba] at h1; simp at h1
                · by_cases hbc : b < c
                  · have hac : a < c := by omega
                    simp [hac]
                  · by_cases hcb : c < b
                    · rw [if_neg hbc, if_pos hcb] at h2; simp at h2
                    · have hac : ¬ a < c := by omega
                      have hca : ¬ c < a := by omega
                      rw [if_neg hab, if_neg hba] at h1
                      rw [if_neg hbc, if_neg hcb] at h2
                      rw [if_neg hac, if_neg hca]
                      exact ih h1 h2

/-! ### Sorting lemmas -/

lemma mem_insert_by_label {z x : LangEntry} {l : List LangEntry} :
    z ∈ insert_by_label x l ↔ z = x ∨ z ∈ l := by
  induction l with
  | nil => simp [insert_by_label]
  | cons y ys ih =>
      unfold insert_by_label
      by_cases hxy : lexLe x.1 y.1 = true
      · simp [hxy]
      · simp only [if_neg hxy, List.mem_cons, ih]
        tauto

lemma mem_sort_by_label {z : LangEntry} {l : List LangEntry} :
    z ∈ sort_by_label l ↔ z ∈ l := by
  induction l with
  | nil => simp [sort_by_label]
  | cons x xs ih => simp [sort_by_label, mem_insert_by_label, ih]

lemma pairwise_insert_by_label {x : LangEntry} {l : List LangEntry}
    (h : l.Pairwise (fun a b : LangEntry => lexLe a.1 b.1 = true)) :
    (insert_by_label x l).Pairwise (fun a b : LangEntry => lexLe a.1 b.1 = true) := by
  induction l with
  | nil => simp [insert_by_label]
  | cons y ys ih =>
      rcases List.pairwise_cons.mp h with ⟨hy, hys⟩
      unfold insert_by_label
      by_cases hxy : lexLe x.1 y.1 = true
      · rw [if_pos hxy]
        refine List.pairwise_cons.mpr ⟨?_, h⟩
        intro z hz
        rcases List.mem_cons.mp hz with hz | hz
        · subst hz; exact hxy
        · exact lexLe_trans hxy (hy z hz)
      · rw [if_neg hxy]
        refine List.pairwise_cons.mpr ⟨?_, ih hys⟩
        intro z hz
        rcases mem_insert_by_label.mp hz with hz | hz
        · rw [hz]
          rcases lexLe_total x.1 y.1 with hx | hx
          · exact absurd hx hxy
          · exact hx
        · exact hy z hz

lemma pairwise_sort_by_label (l : List LangEntry) :
    (sort_by_label l).Pairwise (fun a b : LangEntry => lexLe a.1 b.1 = true) := by
  induction l with
  | nil => simp [sort_by_label]
  | cons x xs ih => exact pairwise_insert_by_label ih

lemma filter_insert_by_label_eq (x : LangEntry) (l : List LangEntry) :
    (insert_by_label x l).filter (fun e => decide (e.1 = x.1)) =
      x :: l.filter (fun e => decide (e.1 = x.1)) := by
  induction l with
  | nil => simp [insert_by_label]
  | cons y ys ih =>
      unfold insert_by_label
      by_cases hxy : lexLe x.1 y.1 = true
      · simp [hxy, List.filter_cons]
      · have hne : ¬ (y.1 = x.1) := by
          intro heq
          apply hxy
          rw [heq]
          exact lexLe_refl x.1
        rw [if_neg hxy]
        rw [List.filter_cons, List.filter_cons]
        simp only [hne, decide_eq_true_eq, if_false, ih]

lemma filter_insert_by_label_ne (x : LangEntry) (l : List LangEntry)
    {k : PyStr} (hk : ¬ (x.1 = k)) :
    (insert_by_label x l).filter (fun e => decide (e.1 = k)) =
      l.filter (fun e => decide (e.1 = k)) := by
  induction l with
  | nil => simp [insert_by_label, hk]
  | cons y ys ih =>
      unfold insert_by_label
      by_cases hxy : lexLe x.1 y.1 = true
      · rw [if_pos hxy]
        rw [List.filter_cons]
        simp [hk]
      · rw [if_neg hxy]
        rw [List.filter_cons, List.filter_cons]
        by_cases hyk : y.1 = k
        · simp [hyk, ih]
        · simp [hyk, ih]

lemma filter_sort_by_label (l : List LangEntry) (k : PyStr) :
    (sort_by_label l).filter (fun e => decide (e.1 = k)) =
      l.filter (fun e => decide (e.1 = k)) := by
  induction l with
  | nil => rfl
  | cons x xs ih =>
      unfold sort_by_label
      by_cases hk : x.1 = k
      · subst hk
        rw [filter_insert_by_label_eq, ih, List.filter_cons]
        simp
      · rw [filter_insert_by_label_ne x _ hk, ih, List.filter_cons]
        simp [hk]

/-! ### find_index lemmas -/

lemma find_index_opt_eq_none_iff {l : List LangEntry} {code : PyStr} :
    find_index_opt l code = none ↔ ∀ p ∈ l, p.2 ≠ code := by
  induction l with
  | nil => simp [find_index_opt]
  | cons x rest ih =>
      obtain ⟨lab, c⟩ := x
      unfold find_index_opt
      by_cases hc : c = code
      · simp [hc]
      · rw [if_neg hc, Option.map_eq_none', ih]
        constructor
        · intro h p hp
          rcases List.mem_cons.mp hp with hp | hp
          · subst hp; exact hc
          · exact h p hp
        · intro h p hp
          exact h p (List.mem_cons_of_mem _ hp)

lemma find_index_opt_some_spec {l : List LangEntry} {code : PyStr} {i : Nat}
    (h : find_index_opt l code = some i) :
    i < l.length ∧
      (l[i]?).map (fun p : LangEntry => p.2) = some code ∧
      ∀ j, j < i → (l[j]?).map (fun p : LangEntry => p.2) ≠ some code := by
  induction l generalizing i with
  | nil => simp [find_index_opt] at h
  | cons x rest ih =>
      obtain ⟨lab, c⟩ := x
      unfold find_index_opt at h
      by_cases hc : c = code
      · rw [if_pos hc] at h
        obtain rfl : i = 0 := by simpa using h.symm
        refine ⟨by simp, by simp [hc], ?_⟩
        intro j hj
        omega
      · rw [if_neg hc] at h
        obtain ⟨i', hi', hsucc⟩ := Option.map_eq_some'.mp h
        obtain rfl : i = i' + 1 := hsucc.symm
        obtain ⟨hlen, hget, hfirst⟩ := ih hi'
        refine ⟨by simpa using Nat.succ_lt_succ hlen, by simpa using hget, ?_⟩
        intro j hj
        cases j with
        | zero => simp [hc]
        | succ j' =>
            rw [List.getElem?_cons_succ]
            exact hfirst j' (by omega)

lemma find_index_found {l : List LangEntry} {code : PyStr}
    (h : ∃ p ∈ l, p.2 = code) :
    (l[find_index l code]?).map (fun p : LangEntry => p.2) = some code ∧
      ∀ j, j < find_index l code →
        (l[j]?).map (fun p : LangEntry => p.2) ≠ some code := by
  cases hopt : find_index_opt l code with
  | none =>
      obtain ⟨p, hp, hpc⟩ := h
      exact absurd hpc (find_index_opt_eq_none_iff.mp hopt p hp)
  | some i =>
      obtain ⟨_, hget, hfirst⟩ := find_index_opt_some_spec hopt
      rw [find_index, hopt]
      exact ⟨hget, hfirst⟩

lemma find_index_not_found {l : List LangEntry} {code : PyStr}
    (h : ∀ p ∈ l, p.2 ≠ code) : find_index l code = 0 := by
  rw [find_index, find_index_opt_eq_none_iff.mpr h]
  rfl

lemma find_index_lt_length {l : List LangEntry} {code : PyStr}
    (h : l ≠ []) : find_index l code < l.length := by
  cases hopt : find_index_opt l code with
  | none =>
      rw [find_index, hopt]
      exact List.length_pos.mpr h
  | some i =>
      rw [find_index, hopt]
      exact (find_index_opt_some_spec hopt).1

/-! ### Claim theorems -/

/-- Claim C1: on submit, validation runs in a fixed order before any provider
interaction: for every input, if the trimmed input text is empty the
submission is rejected with the prompt-for-input warning and no translate
call is made; otherwise, if the target code is "auto" the submission is
rejected with the target-cannot-be-auto error and no translate call is made. -/
theorem submit_validation_order
    (translateFn : PyStr → PyStr → PyStr → Except Nat PyStr)
    (text source_code target_code : PyStr) :
    (pyStrip text = [] →
      render_submit translateFn text source_code target_code =
        (.emptyWarning, 0)) ∧
    (pyStrip text ≠ [] → target_code = autoCode →
      render_submit translateFn text source_code target_code =
        (.autoTargetError, 0)) := by
  constructor
  · intro h
    simp [render_submit, h]
  · intro h ht
    simp [render_submit, h, ht]

/-- Concrete instantiation of submit_validation_order: whitespace-only text
is rejected with the warning, and a non-blank text with target "auto" is
rejected with the error, both without a translate call. -/
theorem submit_validation_order_witness :
    render_submit (fun _ _ _ => Except.error 0) [32, 9] enCode enCode =
      (.emptyWarning, 0) ∧
    render_submit (fun _ _ _ => Except.error 0) [104, 105] enCode autoCode =
      (.autoTargetError, 0) :=
  ⟨(submit_validation_order (fun _ _ _ => Except.error 0) [32, 9] enCode
      enCode).1 (by decide),
   (submit_validation_order (fun _ _ _ => Except.error 0) [104, 105] enCode
      autoCode).2 (by decide) rfl⟩

/-- Claim C2 counterexample: for the submission with whitespace-only input
" " and source = target = "en" (neither being "auto"), the code rejects with
the empty-input warning, so the displayed output is the warning and not the
input text; the echo conclusion of the claim fails at this input. -/
theorem echo_claim_counterexample :
    render_submit (fun _ _ _ => Except.ok []) [32] enCode enCode =
      (.emptyWarning, 0) ∧
    render_submit (fun _ _ _ => Except.ok []) [32] enCode enCode ≠
      (.echo [32], 0) := by
  constructor
  · rfl
  · decide

/-- Claim C2 (amended): for every submission whose trimmed text is non-empty,
if the source code equals the target code and neither is "auto", the
translate operation is never invoked and the displayed output equals the
input text exactly. -/
theorem echo_law (translateFn : PyStr → PyStr → PyStr → Except Nat PyStr)
    (text source_code target_code : PyStr)
    (hblank : pyStrip text ≠ [])
    (heq : source_code = target_code)
    (hauto : source_code ≠ autoCode) :
    render_submit translateFn text source_code target_code = (.echo text, 0) := by
  have htarget : ¬ (target_code = autoCode) := fun h => hauto (heq.trans h)
  unfold render_submit
  rw [if_neg hblank, if_neg htarget, if_pos ⟨hauto, heq⟩]

/-- Concrete instantiation of echo_law: text "T" with source = target = "en"
echoes "T" with no translate call. -/
theorem echo_law_witness :
    render_submit (fun _ _ _ => Except.error 3) [84] enCode enCode =
      (.echo [84], 0) :=
  echo_law (fun _ _ _ => Except.error 3) [84] enCode enCode
    (by decide) rfl (by decide)

/-- Claim C3 counterexample: for the catalog with the single entry
("x", "auto"), the produced targetOptions list contains the entry
("X", "auto"), whose code is "auto"; this refutes, for every catalog, the
conjunct that no entry with code "auto" occurs in targetOptions. -/
theorem build_options_auto_counterexample :
    ([88], autoCode) ∈ (build_language_options [([120], autoCode)]).2 := by
  decide

/-- Claim C3 (amended): for every catalog, originOptions equals targetOptions
with the single synthetic auto-detect entry prepended, so it has exactly one
more entry and its first entry is the pair with code "auto"; and provided no
catalog entry carries the code "auto", no entry with code "auto" occurs in
targetOptions (the code performs no filtering of its own). -/
theorem build_options_structure (supported : List LangEntry) :
    (build_language_options supported).1 =
      (detectLabel, autoCode) :: (build_language_options supported).2 ∧
    (build_language_options supported).1.length =
      (build_language_options supported).2.length + 1 ∧
    ((build_language_options supported).1.head?).map
        (fun p : LangEntry => p.2) = some autoCode ∧
    ((∀ p ∈ supported, p.2 ≠ autoCode) →
      ∀ p ∈ (build_language_options supported).2, p.2 ≠ autoCode) := by
  refine ⟨rfl, rfl, rfl, ?_⟩
  intro h p hp
  have hp' : p ∈ sort_by_label
      (supported.map (fun nc => (format_language_name nc.1, nc.2))) := hp
  rw [mem_sort_by_label] at hp'
  obtain ⟨nc, hnc, rfl⟩ := List.mem_map.mp hp'
  exact h nc hnc

/-- Concrete instantiation of build_options_structure: for the catalog with
the single entry ("english", "en"), whose codes avoid "auto", the entry of
targetOptions does not carry the code "auto". -/
theorem build_options_structure_witness :
    (([69, 110, 103, 108, 105, 115, 104], enCode) : LangEntry).2 ≠ autoCode :=
  (build_options_structure [([101, 110, 103, 108, 105, 115, 104], enCode)]).2.2.2
    (by decide) ([69, 110, 103, 108, 105, 115, 104], enCode) (by decide)

/-- Whether a render pass produced a rendered UI outcome (as opposed to
letting an exception propagate out of `render_app`). -/
def rendersOutcome : Except PyExc (SubmitOutcome × Nat) → Bool
  | .ok _ => true
  | .error _ => false

/-- Claim C4 counterexample: when the catalog load fails, `render_app`
propagates the exception instead of producing any rendered outcome, so not
every failure is caught at the presentation boundary and surfaced as a
user-facing message; only the translate call is guarded. -/
theorem render_app_catalog_failure :
    render_app (Except.error (PyExc.otherError 7)) (fun _ _ _ => Except.ok [])
        [104] autoCode enCode = Except.error (PyExc.otherError 7) ∧
    rendersOutcome (render_app (Except.error (PyExc.otherError 7))
        (fun _ _ _ => Except.ok []) [104] autoCode enCode) = false :=
  ⟨rfl, rfl⟩

/-- Claim C4 (amended): every failure raised during the translate invocation
is caught at the presentation boundary and surfaced as the failure outcome
carrying the captured error (the generic message with the expandable
technical detail), and when the catalog load succeeds the submit path always
produces a rendered outcome; failures of the catalog load itself are not
caught by this code and propagate out of `render_app`. -/
theorem render_failure_handling (cat : List LangEntry)
    (translateFn : PyStr → PyStr → PyStr → Except Nat PyStr)
    (text source_code target_code : PyStr) (e : Nat) :
    (pyStrip text ≠ [] → target_code ≠ autoCode →
      ¬ (source_code ≠ autoCode ∧ source_code = target_code) →
      translateFn text source_code target_code = .error e →
      render_app (.ok cat) translateFn text source_code target_code =
        .ok (.failure e, 1)) ∧
    rendersOutcome
      (render_app (.ok cat) translateFn text source_code target_code) = true := by
  constructor
  · intro h1 h2 h3 h4
    simp only [render_app]
    simp [render_submit, h1, h2, h3, h4]
  · rfl

/-- Concrete instantiation of render_failure_handling: a failing translate
call on a valid submission yields the failure outcome carrying error 5 after
exactly one translate invocation. -/
theorem render_failure_handling_witness :
    render_app (.ok []) (fun _ _ _ => Except.error 5) [104] autoCode enCode =
      .ok (.failure 5, 1) :=
  (render_failure_handling [] (fun _ _ _ => Except.error 5) [104] autoCode
      enCode 5).1 (by decide) (by decide) (by decide) rfl

/-- Claim C5: for every catalog (hence for every permutation of its iteration
order), the targetOptions list produced by the option builder is sorted in
ascending lexicographic order of formatted display label, and the sort is
stable: for every label, the entries carrying that label appear in the same
order as in the original catalog iteration (filtering by a label commutes
with the sort). -/
theorem target_options_sorted_stable (supported : List LangEntry) :
    (build_language_options supported).2.Pairwise
      (fun a b : LangEntry => lexLe a.1 b.1 = true) ∧
    ∀ k : PyStr,
      (build_language_options supported).2.filter (fun e => decide (e.1 = k)) =
        (supported.map (fun nc => (format_language_name nc.1, nc.2))).filter
          (fun e => decide (e.1 = k)) := by
  constructor
  · exact pairwise_sort_by_label _
  · intro k
    exact filter_sort_by_label _ k

/-- Claim C7: the catalog loader attempts the class-level accessor of the
provider first and, exactly when that attempt fails with a type-mismatch
error, falls back to the instance-level accessor; any other outcome of the
first attempt (a success or a different exception) is returned or propagated
unchanged. -/
theorem get_supported_languages_fallback
    (classAttempt instanceAttempt : Except PyExc (List LangEntry)) :
    (∀ cat, classAttempt = .ok cat →
      get_supported_languages classAttempt instanceAttempt = .ok cat) ∧
    (classAttempt = .error .typeError →
      get_supported_languages classAttempt instanceAttempt = instanceAttempt) ∧
    (∀ n, classAttempt = .error (.otherError n) →
      get_supported_languages classAttempt instanceAttempt =
        .error (.otherError n)) := by
  refine ⟨?_, ?_, ?_⟩
  · intro cat h
    subst h
    rfl
  · intro h
    subst h
    rfl
  · intro n h
    subst h
    rfl

/-- Concrete instantiation of get_supported_languages_fallback on all three
shapes of the first attempt. -/
theorem get_supported_languages_fallback_witness :
    get_supported_languages (.ok [([97], [98])]) (.ok []) = .ok [([97], [98])] ∧
    get_supported_languages (.error .typeError) (.ok [([97], [98])]) =
      .ok [([97], [98])] ∧
    get_supported_languages (.error (.otherError 3)) (.ok []) =
      .error (.otherError 3) :=
  ⟨(get_supported_languages_fallback (.ok [([97], [98])]) (.ok [])).1
      [([97], [98])] rfl,
   (get_supported_languages_fallback (.error .typeError) (.ok [([97], [98])])).2.1
      rfl,
   (get_supported_languages_fallback (.error (.otherError 3)) (.ok [])).2.2
      3 rfl⟩

/-- Claim C8: on first render, the default source selection is the index of
the option with code "auto" in originOptions (which is always index 0, the
synthetic entry being first) and the default target selection is the index of
the first option with code "en" in targetOptions, each resolved by a linear
scan over the option list matching on code, and each falling back to index 0
when no entry with that code is present. -/
theorem default_indices_correct (supported : List LangEntry) :
    default_source_index supported = 0 ∧
    (((build_language_options supported).1)[default_source_index supported]?).map
        (fun p : LangEntry => p.2) = some autoCode ∧
    ((∃ p ∈ (build_language_options supported).2, p.2 = enCode) →
      ((((build_language_options supported).2)[default_target_index supported]?).map
          (fun p : LangEntry => p.2) = some enCode ∧
        ∀ j, j < default_target_index supported →
          (((build_language_options supported).2)[j]?).map
            (fun p : LangEntry => p.2) ≠ some enCode)) ∧
    ((∀ p ∈ (build_language_options supported).2, p.2 ≠ enCode) →
      default_target_index supported = 0) := by
  have hsrc : default_source_index supported = 0 := by
    show find_index ((detectLabel, autoCode) :: _) autoCode = 0
    simp [find_index, find_index_opt]
  refine ⟨hsrc, ?_, ?_, ?_⟩
  · rw [hsrc]
    simp [build_language_options]
  · intro h
    exact find_index_found h
  · intro h
    exact find_index_not_found h

/-- Concrete instantiation of default_indices_correct: with the catalog
[("english", "en")] the default target index selects the entry with code
"en", and with the catalog [("x", "q")] - which has no "en" entry - the
default target index falls back to 0. -/
theorem default_indices_correct_witness :
    (((build_language_options
        [([101, 110, 103, 108, 105, 115, 104], enCode)]).2)[
        default_target_index [([101, 110, 103, 108, 105, 115, 104], enCode)]]?).map
      (fun p : LangEntry => p.2) = some enCode ∧
    default_target_index [([120], [113])] = 0 :=
  ⟨((default_indices_correct [([101, 110, 103, 108, 105, 115, 104], enCode)]).2.2.1
      (by decide)).1,
   (default_indices_correct [([120], [113])]).2.2.2 (by decide)⟩

/-- Every call made while a catalog is cached returns the cached catalog
without invoking the provider, leaving the cache unchanged. -/
lemma cached_runs_cached (p : Except PyExc (List LangEntry))
    (cat : List LangEntry) :
    ∀ n : Nat, ∀ r ∈ cached_loader_runs p n (some cat),
      r = (Except.ok cat, false) := by
  intro n
  induction n with
  | zero =>
      intro r hr
      simp [cached_loader_runs] at hr
  | succ m ih =>
      intro r hr
      simp only [cached_loader_runs, cached_loader_step] at hr
      rcases List.mem_cons.mp hr with hr | hr
      · exact hr
      · exact ih r hr

/-- Claim C9: the language catalog is memoized process-wide: after the first
successful load caches the catalog, every subsequent call within the process
lifetime returns the cached mapping without re-invoking the provider,
whatever the provider would do on those later calls. -/
theorem catalog_memoized
    (firstProvider laterProvider : Except PyExc (List LangEntry))
    (cat : List LangEntry) (n : Nat)
    (hfirst : firstProvider = .ok cat) :
    cached_loader_step firstProvider none = (.ok cat, some cat, true) ∧
    ∀ r ∈ cached_loader_runs laterProvider n (some cat),
      r = (Except.ok cat, false) := by
  subst hfirst
  exact ⟨rfl, cached_runs_cached laterProvider cat n⟩

/-- Concrete instantiation of catalog_memoized: a successful first load of
the empty catalog invokes the provider once and fills the cache. -/
theorem catalog_memoized_witness :
    cached_loader_step (Except.ok ([] : List LangEntry)) none =
      (Except.ok ([] : List LangEntry), some [], true) :=
  (catalog_memoized (Except.ok []) (Except.error PyExc.typeError) [] 5 rfl).1

/-- Claim C10: for every list of (label, code) options and every code,
`find_index` returns the index of the first entry whose code component
equals the given code when such an entry exists, and returns 0 otherwise;
consequently, for every non-empty options list the returned value is a
valid in-bounds index. -/
theorem find_index_correct (options : List LangEntry) (code : PyStr) :
    ((∃ p ∈ options, p.2 = code) →
      ((options[find_index options code]?).map (fun p : LangEntry => p.2) =
          some code ∧
        ∀ j, j < find_index options code →
          (options[j]?).map (fun p : LangEntry => p.2) ≠ some code)) ∧
    ((∀ p ∈ options, p.2 ≠ code) → find_index options code = 0) ∧
    (options ≠ [] → find_index options code < options.length) :=
  ⟨fun h => find_index_found h,
   fun h => find_index_not_found h,
   fun h => find_index_lt_length h⟩

/-- Concrete instantiation of find_index_correct: on a three-entry list whose
last two entries carry the code "en", the scan lands on an "en" entry (the
first one, at index 1, in bounds); on a list without the sought code it
returns 0. -/
theorem find_index_correct_witness :
    ((([([97], [120]), ([98], enCode), ([99], enCode)] :
        List LangEntry)[find_index
          [([97], [120]), ([98], enCode), ([99], enCode)] enCode]?).map
        (fun p : LangEntry => p.2) = some enCode) ∧
    find_index [([97], [120])] [113] = 0 ∧
    find_index [([97], [120]), ([98], enCode), ([99], enCode)] enCode <
      ([([97], [120]), ([98], enCode), ([99], enCode)] : List LangEntry).length :=
  ⟨((find_index_correct [([97], [120]), ([98], enCode), ([99], enCode)]
        enCode).1 (by decide)).1,
   (find_index_correct [([97], [120])] [113]).2.1 (by decide),
   (find_index_correct [([97], [120]), ([98], enCode), ([99], enCode)]
        enCode).2.2 (by decide)⟩
